import Mathlib

/-!
# Verification of the Broken-Calculator core logic

Shallow embedding of `src/logic/equation_validator.py` and
`src/logic/broken_button_validator.py` from the sugarlabs/Broken-Calculator
repository.

Modelling conventions:
* Python strings are `List Char`; `str.strip` is `trimWs`, `str.replace(" ","")`
  is `List.filter (· ≠ ' ')`; whitespace is `Char.isWhitespace`
  (space, tab, CR, LF).
* Python numbers (ints and floats) are modelled as exact rationals `ℚ`.
  True division is exact rational division, `math.isclose` is the same
  formula over `ℚ` with Python's default tolerances (`rel_tol = 1e-9`,
  `abs_tol = 0`).  Machine floating-point rounding, overflow on huge
  integer-to-float conversion, and interpreter recursion limits are outside
  this model.
* Python exceptions become `Except` / explicit error fields.
* `ast.parse(expr, mode="eval")` is external library code, not part of the
  repository; it is modelled from the spec (sections 4.1 and 2, "Expression
  Parser") as a tokenizer plus recursive-descent parser over the character
  set `0-9 + - * / ( ) .` and whitespace, with CPython's actual grammar over
  that character set: the four binary operators plus `**` (power) and `//`
  (floor division) tokens, unary minus and unary plus, decimal literals
  (no leading zeros on nonzero integer literals), and parentheses.
-/

/-! ## Characters and Python string helpers -/

/-- Characters accepted by `validate`'s character filter, i.e. the regex
class `[0-9+\-*\x2f().\s]` from `equation_validator.py` line 186. -/
def legalChar (c : Char) : Bool :=
  c.isDigit || c = '+' || c = '-' || c = '*' || c = '/' ||
    c = '(' || c = ')' || c = '.' || c.isWhitespace

/-- Python `str.strip()`: remove leading and trailing whitespace. -/
def trimWs (cs : List Char) : List Char :=
  ((cs.dropWhile Char.isWhitespace).reverse.dropWhile Char.isWhitespace).reverse

/-- Model of `re.search(r"[^0-9+\-*\x2f().\s]", equation)`: does some
character fall outside the legal class? -/
def hasIllegalChar (cs : List Char) : Bool :=
  cs.any (fun c => !legalChar c)

/-- Scanning helper for the unary-plus regex: a `'+'` somewhere in the list
whose preceding character (the first argument for the head position) is `'('`
or whitespace. -/
def plusAfter : Char → List Char → Bool
  | _, [] => false
  | prev, c :: rest =>
    (c = '+' && (prev = '(' || prev.isWhitespace)) || plusAfter c rest

/-- Model of `re.search(r"(^|\(|\s)\+", equation)` from
`equation_validator.py` line 190: a `'+'` at the start of the string, or
immediately preceded by `'('` or by a whitespace character. -/
def unaryPlusRe : List Char → Bool
  | [] => false
  | c :: rest => c = '+' || plusAfter c rest

/-! ## The Python `ast` expression AST over the calculator charset -/

/-- Binary operator kinds reachable by parsing text over the calculator
character set: the four arithmetic operators plus `**` (`ast.Pow`) and
`//` (`ast.FloorDiv`). -/
inductive BinKind where
  | add
  | sub
  | mult
  | div
  | pow
  | floorDiv
deriving DecidableEq, Repr

/-- Unary operator kinds reachable over the calculator charset:
`ast.USub` and `ast.UAdd`. -/
inductive UnKind where
  | usub
  | uadd
deriving DecidableEq, Repr

/-- Expression AST, mirroring the `ast` nodes handled by the repository code:
numeric constants, unary operations, binary operations, and `other` standing
for any further `ast` node kind (which `safe_eval` rejects with `TypeError`
and which `_canonicalize` / `_extract` treat as an opaque leaf). -/
inductive Node where
  | num (v : ℚ)
  | unaryOp (op : UnKind) (operand : Node)
  | binOp (op : BinKind) (left : Node) (right : Node)
  | other
deriving DecidableEq, Repr

/-! ## Tokenizer and parser (model of `ast.parse(expr, mode="eval")`) -/

/-- Tokens over the calculator character set. -/
inductive Token where
  | num (q : ℚ)
  | plus
  | minus
  | star
  | slash
  | dstar
  | dslash
  | lparen
  | rparen
deriving DecidableEq, Repr

/-- Characters that can be part of a numeric literal run. -/
def numChar (c : Char) : Bool := c.isDigit || c = '.'

/-- Decimal value of a digit string. -/
def digitsToNat (cs : List Char) : ℕ :=
  cs.foldl (fun a c => a * 10 + (c.toNat - 48)) 0

/-- Modelled from the spec: CPython numeric-literal parsing for a maximal
run of digits and dots, as restricted by the section 4.1 grammar (decimal
literals, optional fractional part, no exponent).  Rejects a second dot
and leading zeros on nonzero integer literals, as CPython does. -/
def parseNumber (run : List Char) : Option ℚ :=
  let ip := run.takeWhile Char.isDigit
  let rest := run.dropWhile Char.isDigit
  match rest with
  | [] =>
    if ip = [] then none
    else if ip.head? = some '0' ∧ ¬ (ip.all (fun c => c = '0')) then none
    else some ((digitsToNat ip : ℤ) : ℚ)
  | '.' :: frac =>
    if frac.all Char.isDigit ∧ (ip ≠ [] ∨ frac ≠ []) then
      some ((digitsToNat ip : ℚ) + (digitsToNat frac : ℚ) / ((10 : ℚ) ^ frac.length))
    else none
  | _ => none

/-- Modelled from the spec: the tokenizer half of the Expression Parser
(section 4.1), fuelled for structural termination.  `**` and `//` are single
tokens exactly when adjacent, as in CPython. -/
def tokenize : ℕ → List Char → Option (List Token)
  | _, [] => some []
  | 0, _ :: _ => none
  | fuel + 1, c :: cs =>
    if c.isWhitespace then tokenize fuel cs
    else if c = '+' then (tokenize fuel cs).map (Token.plus :: ·)
    else if c = '-' then (tokenize fuel cs).map (Token.minus :: ·)
    else if c = '(' then (tokenize fuel cs).map (Token.lparen :: ·)
    else if c = ')' then (tokenize fuel cs).map (Token.rparen :: ·)
    else if c = '*' then
      if cs.head? = some '*' then (tokenize fuel cs.tail).map (Token.dstar :: ·)
      else (tokenize fuel cs).map (Token.star :: ·)
    else if c = '/' then
      if cs.head? = some '/' then (tokenize fuel cs.tail).map (Token.dslash :: ·)
      else (tokenize fuel cs).map (Token.slash :: ·)
    else if numChar c then
      match parseNumber ((c :: cs).takeWhile numChar) with
      | some q => (tokenize fuel ((c :: cs).dropWhile numChar)).map (Token.num q :: ·)
      | none => none
    else none

mutual

/-- Modelled from the spec: expression level of the recursive-descent
parser, `expr := term (('+' | '-') term)*`, left associative. -/
def parseExprLvl : ℕ → List Token → Option (Node × List Token)
  | 0, _ => none
  | fuel + 1, ts =>
    (parseTermLvl fuel ts).bind fun p => parseExprLoop fuel p.1 p.2

/-- Left-associative loop for `+` and `-`. -/
def parseExprLoop : ℕ → Node → List Token → Option (Node × List Token)
  | 0, _, _ => none
  | fuel + 1, acc, Token.plus :: ts =>
    (parseTermLvl fuel ts).bind fun p =>
      parseExprLoop fuel (Node.binOp BinKind.add acc p.1) p.2
  | fuel + 1, acc, Token.minus :: ts =>
    (parseTermLvl fuel ts).bind fun p =>
      parseExprLoop fuel (Node.binOp BinKind.sub acc p.1) p.2
  | _ + 1, acc, ts => some (acc, ts)

/-- Term level: `term := unary (('*' | '/' | '//') unary)*`, left
associative. -/
def parseTermLvl : ℕ → List Token → Option (Node × List Token)
  | 0, _ => none
  | fuel + 1, ts =>
    (parseUnaryLvl fuel ts).bind fun p => parseTermLoop fuel p.1 p.2

/-- Left-associative loop for `*`, `/` and `//`. -/
def parseTermLoop : ℕ → Node → List Token → Option (Node × List Token)
  | 0, _, _ => none
  | fuel + 1, acc, Token.star :: ts =>
    (parseUnaryLvl fuel ts).bind fun p =>
      parseTermLoop fuel (Node.binOp BinKind.mult acc p.1) p.2
  | fuel + 1, acc, Token.slash :: ts =>
    (parseUnaryLvl fuel ts).bind fun p =>
      parseTermLoop fuel (Node.binOp BinKind.div acc p.1) p.2
  | fuel + 1, acc, Token.dslash :: ts =>
    (parseUnaryLvl fuel ts).bind fun p =>
      parseTermLoop fuel (Node.binOp BinKind.floorDiv acc p.1) p.2
  | _ + 1, acc, ts => some (acc, ts)

/-- Unary level: `unary := ('-' | '+')* power`.  CPython accepts unary plus
here (producing `ast.UAdd`); it is the validator layer, not the parser, that
rejects it. -/
def parseUnaryLvl : ℕ → List Token → Option (Node × List Token)
  | 0, _ => none
  | fuel + 1, Token.minus :: ts =>
    (parseUnaryLvl fuel ts).map fun p => (Node.unaryOp UnKind.usub p.1, p.2)
  | fuel + 1, Token.plus :: ts =>
    (parseUnaryLvl fuel ts).map fun p => (Node.unaryOp UnKind.uadd p.1, p.2)
  | fuel + 1, ts => parsePowLvl fuel ts

/-- Power level: `power := atom ('**' unary)?`, right associative with a
unary-level right operand, as in CPython. -/
def parsePowLvl : ℕ → List Token → Option (Node × List Token)
  | 0, _ => none
  | fuel + 1, ts =>
    (parseAtomLvl fuel ts).bind fun p =>
      match p.2 with
      | Token.dstar :: ts2 =>
        (parseUnaryLvl fuel ts2).map fun q => (Node.binOp BinKind.pow p.1 q.1, q.2)
      | _ => some p

/-- Atom level: a numeric literal or a parenthesised expression. -/
def parseAtomLvl : ℕ → List Token → Option (Node × List Token)
  | 0, _ => none
  | _ + 1, Token.num q :: ts => some (Node.num q, ts)
  | fuel + 1, Token.lparen :: ts =>
    (parseExprLvl fuel ts).bind fun p =>
      match p.2 with
      | Token.rparen :: ts2 => some (p.1, ts2)
      | _ => none
  | _ + 1, _ => none

end

/-- Modelled from the spec: `ast.parse(expr, mode="eval").body` over the
calculator character set.  Returns `none` where CPython would raise
`SyntaxError`. -/
def parseExpr (cs : List Char) : Option Node :=
  (tokenize cs.length cs).bind fun ts =>
    match parseExprLvl (8 * (ts.length + 1)) ts with
    | some (n, []) => some n
    | _ => none

/-! ## `safe_eval` (equation_validator.py lines 25-64) -/

/-- Errors raised by `safe_eval`: `ValueError` on parse failure,
`TypeError` on a disallowed operator or node, `ZeroDivisionError` from
`op.truediv`. -/
inductive SafeEvalError where
  | valueError
  | typeErrorUnaryOp (op : UnKind)
  | typeErrorBinOp (op : BinKind)
  | typeErrorNode
  | zeroDivision
deriving DecidableEq, Repr

/-- The `allowed_operators` table, unary entries: only `ast.USub ↦ op.neg`. -/
def allowedUnary : UnKind → Option (ℚ → ℚ)
  | UnKind.usub => some (fun a => -a)
  | UnKind.uadd => none

/-- The `allowed_operators` table, binary entries: `ast.Add ↦ op.add`,
`ast.Sub ↦ op.sub`, `ast.Mult ↦ op.mul`, `ast.Div ↦ op.truediv` (which
raises `ZeroDivisionError` on a zero right operand). -/
def allowedBin : BinKind → Option (ℚ → ℚ → Except SafeEvalError ℚ)
  | BinKind.add => some (fun a b => Except.ok (a + b))
  | BinKind.sub => some (fun a b => Except.ok (a - b))
  | BinKind.mult => some (fun a b => Except.ok (a * b))
  | BinKind.div =>
    some (fun a b => if b = 0 then Except.error SafeEvalError.zeroDivision
                     else Except.ok (a / b))
  | BinKind.pow => none
  | BinKind.floorDiv => none

/-- The `_eval_node` walker inside `safe_eval`. -/
def eval_node : Node → Except SafeEvalError ℚ
  | Node.num v => Except.ok v
  | Node.unaryOp u x =>
    match allowedUnary u with
    | none => Except.error (SafeEvalError.typeErrorUnaryOp u)
    | some f => (eval_node x).map f
  | Node.binOp k l r =>
    match allowedBin k with
    | none => Except.error (SafeEvalError.typeErrorBinOp k)
    | some f =>
      (eval_node l).bind fun a => (eval_node r).bind fun b => f a b
  | Node.other => Except.error SafeEvalError.typeErrorNode

/-- `safe_eval(expr)`: parse then evaluate; parse failure is re-raised as
`ValueError("Invalid syntax in expression")`. -/
def safe_eval (cs : List Char) : Except SafeEvalError ℚ :=
  match parseExpr cs with
  | none => Except.error SafeEvalError.valueError
  | some t => eval_node t

instance : DecidableEq (Except SafeEvalError ℚ) := fun x y =>
  match x, y with
  | Except.ok a, Except.ok b =>
    if h : a = b then isTrue (by rw [h]) else
      isFalse (by intro hc; cases hc; exact h rfl)
  | Except.ok _, Except.error _ => isFalse (by intro hc; cases hc)
  | Except.error _, Except.ok _ => isFalse (by intro hc; cases hc)
  | Except.error e, Except.error f =>
    if h : e = f then isTrue (by rw [h]) else
      isFalse (by intro hc; cases hc; exact h rfl)

/-! ## Canonical forms (`_get_canonical_form`, lines 72-132) -/

/-- Digits of a natural number, most significant first (fuelled). -/
def natDigitsAux : ℕ → ℕ → List Char
  | 0, _ => []
  | fuel + 1, n =>
    if n = 0 then [] else natDigitsAux fuel (n / 10) ++ [Char.ofNat (48 + n % 10)]

/-- Decimal string of a natural number. -/
def natStr (n : ℕ) : List Char := if n = 0 then ['0'] else natDigitsAux n n

/-- Decimal string of an integer. -/
def intStr (i : ℤ) : List Char :=
  if i < 0 then '-' :: natStr i.natAbs else natStr i.natAbs

/-- Smallest exponent `e ≤ 60` such that `q * 10 ^ e` is an integer. -/
def decExp (q : ℚ) : Option ℕ :=
  (List.range 61).find? (fun e => (q * (10 : ℚ) ^ e).den = 1)

/-- Python `str(node.n)` for the numeric values that appear as literals:
integers print as decimal digits, terminating decimals print with their
shortest decimal expansion (CPython's `repr` of the float of a short decimal
literal).  Values that are integers print without a trailing `.0`; a
non-terminating rational (unreachable from parsed literals) falls back to a
fraction rendering. -/
def printNum (q : ℚ) : List Char :=
  if q.den = 1 then intStr q.num
  else
    match decExp q with
    | some e =>
      let sgn : List Char := if q < 0 then ['-'] else []
      let ds := natStr (|q| * (10 : ℚ) ^ e).num.natAbs
      let ds2 := List.replicate (e + 1 - ds.length) '0' ++ ds
      sgn ++ ds2.take (ds2.length - e) ++ '.' :: ds2.drop (ds2.length - e)
    | none => intStr q.num ++ '/' :: natStr q.den

/-- Lexicographic comparison of strings by code point, Python `str.__lt__`
weakened to less-or-equal. -/
def lexLe : List Char → List Char → Bool
  | [], _ => true
  | _ :: _, [] => false
  | a :: as, b :: bs =>
    if a.val < b.val then true
    else if a = b then lexLe as bs
    else false

/-- Insertion step of `list.sort()` under `lexLe`. -/
def insertSorted (x : List Char) : List (List Char) → List (List Char)
  | [] => [x]
  | y :: ys => if lexLe x y then x :: y :: ys else y :: insertSorted x ys

/-- Python `operands.sort()`: sort a list of strings lexicographically. -/
def sortStrs : List (List Char) → List (List Char)
  | [] => []
  | x :: xs => insertSorted x (sortStrs xs)

/-- Unary symbol table `  {ast.USub: "-"}.get(type(node.op), "")`. -/
def usym : UnKind → List Char
  | UnKind.usub => ['-']
  | UnKind.uadd => []

/-- Binary symbol table `{Add: "+", Sub: "-", Mult: "*", Div: "\x2f"}.get(op_type)`;
a missing entry is Python `None`, which an f-string renders as `"None"`. -/
def bsym : BinKind → List Char
  | BinKind.add => ['+']
  | BinKind.sub => ['-']
  | BinKind.mult => ['*']
  | BinKind.div => ['/']
  | BinKind.pow => ['N', 'o', 'n', 'e']
  | BinKind.floorDiv => ['N', 'o', 'n', 'e']

/-- Size of a `Node`, used only to compute a sufficient fuel. -/
def nsize : Node → ℕ
  | Node.num _ => 1
  | Node.unaryOp _ x => nsize x + 1
  | Node.binOp _ l r => nsize l + nsize r + 1
  | Node.other => 1

mutual

/-- The `_canonicalize` walker of `_get_canonical_form` (fuelled): numbers
print as `str(node.n)`; `-X` becomes `(-X)` (and `+X` becomes `(X)`, the
`.get` default `""`); `+`/`*` chains are flattened, canonicalized, sorted
and joined; `-`, `/` (and the unhandled `**`, `//`, whose symbol is `None`)
keep operand order; any other node yields `""`. -/
def canonF : ℕ → Node → List Char
  | 0, _ => []
  | _ + 1, Node.num v => printNum v
  | fuel + 1, Node.unaryOp u x => '(' :: (usym u ++ canonF fuel x ++ [')'])
  | fuel + 1, Node.binOp k l r =>
    if k = BinKind.add ∨ k = BinKind.mult then
      '(' :: (List.intercalate (bsym k)
        (sortStrs (collectF fuel k (Node.binOp k l r))) ++ [')'])
    else '(' :: (canonF fuel l ++ bsym k ++ canonF fuel r ++ [')'])
  | _ + 1, Node.other => []

/-- The `_collect_operands` helper: flatten a maximal chain of the same
commutative operator and canonicalize each collected operand. -/
def collectF : ℕ → BinKind → Node → List (List Char)
  | 0, _, _ => []
  | fuel + 1, k, Node.binOp k2 l r =>
    if k2 = k then collectF fuel k l ++ collectF fuel k r
    else [canonF fuel (Node.binOp k2 l r)]
  | fuel + 1, _, n => [canonF fuel n]

end

/-- Canonical form of a parsed tree, with fuel ample for the whole walk. -/
def canonNode (t : Node) : List Char := canonF (2 * nsize t + 2) t

/-- `_get_canonical_form(equation)`: canonicalize the parse tree, or fall
back to the whitespace-stripped text when parsing fails (the Python fallback
strips only `" "`, space proper). -/
def get_canonical_form (cs : List Char) : List Char :=
  match parseExpr cs with
  | none => cs.filter (fun c => c != ' ')
  | some t => canonNode t

/-! ## Signature extraction (`_extract_operands_and_operators`, lines 134-174) -/

/-- Operator names as produced by `type(node.op).__name__` (binary) and
`f"unary_{...}"` (unary). -/
inductive OpName where
  | add
  | sub
  | mult
  | div
  | pow
  | floorDiv
  | unaryUSub
  | unaryUAdd
deriving DecidableEq, Repr

/-- Binary `__name__`. -/
def binName : BinKind → OpName
  | BinKind.add => OpName.add
  | BinKind.sub => OpName.sub
  | BinKind.mult => OpName.mult
  | BinKind.div => OpName.div
  | BinKind.pow => OpName.pow
  | BinKind.floorDiv => OpName.floorDiv

/-- Unary `unary_{__name__}`. -/
def unName : UnKind → OpName
  | UnKind.usub => OpName.unaryUSub
  | UnKind.uadd => OpName.unaryUAdd

/-- Operand values collected by `_extract` (the Python normalisation
`int(val) if val == int(val) else val` is the identity on exact rationals). -/
def operandsOf : Node → List ℚ
  | Node.num v => [v]
  | Node.unaryOp _ x => operandsOf x
  | Node.binOp _ l r => operandsOf l ++ operandsOf r
  | Node.other => []

/-- Operator names collected by `_extract`; unknown node kinds are skipped
without recursing into children, as in the source. -/
def operatorsOf : Node → List OpName
  | Node.num _ => []
  | Node.unaryOp u x => unName u :: operatorsOf x
  | Node.binOp k l r => binName k :: (operatorsOf l ++ operatorsOf r)
  | Node.other => []

/-- Result triple of `_extract_operands_and_operators`. -/
structure Signature where
  operands : List ℚ
  operators : List OpName
  structure_sig : List Char
deriving DecidableEq, Repr

/-- `_extract_operands_and_operators(equation)`: on parse failure the
degenerate `(Counter(), Counter(), "")`; otherwise the collected operand
and operator lists together with the canonical form of the same text. -/
def extract_operands_and_operators (cs : List Char) : Signature :=
  match parseExpr cs with
  | none => ⟨[], [], []⟩
  | some t => ⟨operandsOf t, operatorsOf t, get_canonical_form cs⟩

/-- Equality of Python `Counter`s built from two lists: every element counts
the same in both. -/
def counterEq {α : Type} [DecidableEq α] (a b : List α) : Bool :=
  a.all (fun x => decide (a.count x = b.count x)) &&
    b.all (fun x => decide (a.count x = b.count x))

/-- `are_equations_equivalent(eq1, eq2)` (lines 206-237): fast path on
space-stripped textual equality, then the three-part signature comparison. -/
def are_equations_equivalent (eq1 eq2 : List Char) : Bool :=
  if eq1.filter (fun c => c != ' ') = eq2.filter (fun c => c != ' ') then true
  else
    let s1 := extract_operands_and_operators eq1
    let s2 := extract_operands_and_operators eq2
    if s1.structure_sig = [] || s2.structure_sig = [] then false
    else if !(counterEq s1.operands s2.operands && counterEq s1.operators s2.operators) then
      false
    else decide (s1.structure_sig = s2.structure_sig)

/-! ## `validate` (lines 176-204) -/

/-- Error outcomes reported through `result["error"]`; `invalidEquation`
carries the exception detail interpolated into `f"Invalid equation: {e}"`,
`valueMismatch` models `f"Result is {value:.2f}, not {target}"`. -/
inductive VError where
  | emptyEquation
  | illegalCharacter
  | unaryPlusNotAllowed
  | divisionByZero
  | invalidEquation (detail : SafeEvalError)
  | valueMismatch (value : ℚ) (target : ℚ)
deriving DecidableEq, Repr

/-- The `result` dictionary `{"valid": ..., "error": ..., "value": ...}`;
`error = none` models the initial empty string. -/
structure VResult where
  valid : Bool
  error : Option VError
  value : Option ℚ
deriving DecidableEq, Repr

/-- Python `math.isclose(a, b)` with the default tolerances
`rel_tol = 1e-9`, `abs_tol = 0.0`, read over exact rationals. -/
def isClose (a b : ℚ) : Bool :=
  decide (|a - b| ≤ max ((1 / 1000000000 : ℚ) * max |a| |b|) 0)

/-- `EquationValidator.validate(equation, target)`: strip, reject empty
text, illegal characters and the unary-plus pattern, then evaluate and
compare with `math.isclose` against `float(target)`. -/
def validate (equation : List Char) (target : ℚ) : VResult :=
  let eq := trimWs equation
  if eq = [] then ⟨false, some VError.emptyEquation, none⟩
  else if hasIllegalChar eq then ⟨false, some VError.illegalCharacter, none⟩
  else if unaryPlusRe eq then ⟨false, some VError.unaryPlusNotAllowed, none⟩
  else
    match safe_eval eq with
    | Except.ok v =>
      if isClose v target then ⟨true, none, some v⟩
      else ⟨false, some (VError.valueMismatch v target), some v⟩
    | Except.error SafeEvalError.zeroDivision =>
      ⟨false, some VError.divisionByZero, none⟩
    | Except.error e => ⟨false, some (VError.invalidEquation e), none⟩

/-! ## Broken buttons (`broken_button_validator.py`) -/

/-- `ALL_BUTTONS`: the sixteen calculator keys, each a one-character
string. -/
def ALL_BUTTONS : List Char :=
  ['0', '1', '2', '3', '4', '5', '6', '7', '8', '9',
   '+', '-', '*', '/', '(', ')']

/-- `_get_required_working_buttons(target)` with
`SMALL_TARGET_THRESHOLD = 50`. -/
def required_working (target : ℤ) : List Char :=
  if target ≤ 50 then ['1', '+'] else ['2', '*', '+']

/-- Integer value of a digit key. -/
def digitVal (c : Char) : ℤ := (c.toNat : ℤ) - 48

/-- The working buttons left over after removing `broken_buttons`. -/
def working_buttons (broken : List Char) : List Char :=
  ALL_BUTTONS.filter (fun b => decide (b ∉ broken))

/-- `digits = [int(b) for b in working_buttons if b.isdigit()]`. -/
def enabledDigits (broken : List Char) : List ℤ :=
  ((working_buttons broken).filter Char.isDigit).map digitVal

/-- `operators = [b for b in working_buttons if b in "+-*\x2f"]`. -/
def enabledOps (broken : List Char) : List Char :=
  (working_buttons broken).filter
    (fun b => b = '+' || b = '-' || b = '*' || b = '/')

/-- `_estimate_max_reachable_value(digits, operators)`: start from
`max(digits) * 10`, raise to `sum(digits) * 5` when `+` is available and to
`max(digits) ** 2` when `*` is available with at least two digits.
(`max(digits)` is modelled as a fold from `0`; the call sites pass nonempty
lists of digit values `0..9`, on which the fold agrees with Python's
`max`.) -/
def estimate_max_reachable_value (digits : List ℤ) (operators : List Char) : ℤ :=
  let max_digit := digits.foldl max 0
  let e1 := max_digit * 10
  let e2 := if '+' ∈ operators then max e1 (digits.sum * 5) else e1
  if '*' ∈ operators ∧ 2 ≤ digits.length then max e2 (max_digit ^ 2) else e2

/-- `validate_solvable(target, broken_buttons)`: unsolvable when no digit
or no operator key remains, otherwise solvable exactly when the estimate
reaches the target. -/
def validate_solvable (target : ℤ) (broken : List Char) : Bool :=
  if enabledDigits broken = [] ∨ enabledOps broken = [] then false
  else decide (target ≤ estimate_max_reachable_value (enabledDigits broken) (enabledOps broken))

/-- Contract of `random.sample(population, k)` for `k ≤ len(population)`
and a duplicate-free population: `k` distinct elements of the population,
in some order.  Quantifying over all functions with this contract models
quantifying over every random outcome. -/
def SampleSpec (samp : List Char → ℕ → List Char) : Prop :=
  ∀ pop k, k ≤ pop.length → pop.Nodup →
    (samp pop k).length = k ∧ (samp pop k).Nodup ∧ ∀ x ∈ samp pop k, x ∈ pop

/-- `breakable = [b for b in self.ALL_BUTTONS if b not in required_working]`. -/
def breakable_buttons (target : ℤ) : List Char :=
  ALL_BUTTONS.filter (fun b => decide (b ∉ required_working target))

/-- `generate_broken_buttons(target, count, attempts)` with
`MAX_RECURSION_ATTEMPTS = 10`, parameterised by the sampling outcome
`samp` standing for `random.sample`; `broken` is a sample of
`min(count, len(breakable))` keys, kept if `validate_solvable` accepts it
and otherwise retried with `count - 1`. -/
def generate_broken_buttons (samp : List Char → ℕ → List Char)
    (target : ℤ) (count : ℤ) (attempts : ℕ) : List Char :=
  if count ≤ 0 ∨ 10 ≤ attempts then []
  else if validate_solvable target
      (samp (breakable_buttons target)
        (min count ((breakable_buttons target).length : ℤ)).toNat) then
    samp (breakable_buttons target)
      (min count ((breakable_buttons target).length : ℤ)).toNat
  else generate_broken_buttons samp target (count - 1) (attempts + 1)
termination_by 10 - attempts
decreasing_by omega

/-! ## Theorems -/

/-- Big-step relation: `v` is computable from `t` using only the five
allowed primitives — addition, subtraction, multiplication, true division
with a nonzero right operand, and unary negation. -/
inductive Computes : Node → ℚ → Prop where
  | num (v : ℚ) : Computes (Node.num v) v
  | neg {x : Node} {v : ℚ} :
      Computes x v → Computes (Node.unaryOp UnKind.usub x) (-v)
  | add {l r : Node} {a b : ℚ} :
      Computes l a → Computes r b → Computes (Node.binOp BinKind.add l r) (a + b)
  | sub {l r : Node} {a b : ℚ} :
      Computes l a → Computes r b → Computes (Node.binOp BinKind.sub l r) (a - b)
  | mult {l r : Node} {a b : ℚ} :
      Computes l a → Computes r b → Computes (Node.binOp BinKind.mult l r) (a * b)
  | div {l r : Node} {a b : ℚ} :
      Computes l a → Computes r b → b ≠ 0 →
      Computes (Node.binOp BinKind.div l r) (a / b)

lemma eval_node_computes : ∀ (t : Node) (v : ℚ),
    eval_node t = Except.ok v → Computes t v := by
  intro t
  induction t with
  | num q =>
    intro v h
    simp only [eval_node, Except.ok.injEq] at h
    subst h
    exact Computes.num q
  | unaryOp u x ih =>
    intro v h
    cases u with
    | usub =>
      simp only [eval_node, allowedUnary] at h
      cases hx : eval_node x with
      | ok a =>
        rw [hx] at h
        simp only [Except.map, Except.ok.injEq] at h
        subst h
        exact Computes.neg (ih a hx)
      | error e =>
        rw [hx] at h
        simp [Except.map] at h
    | uadd => simp only [eval_node, allowedUnary] at h; exact Except.noConfusion h
  | binOp k l r ihl ihr =>
    intro v h
    cases k with
    | add =>
      simp only [eval_node, allowedBin] at h
      cases hl : eval_node l with
      | ok a =>
        cases hr : eval_node r with
        | ok b =>
          rw [hl, hr] at h
          simp only [Except.bind, Except.ok.injEq] at h
          subst h
          exact Computes.add (ihl a hl) (ihr b hr)
        | error e => rw [hl, hr] at h; simp [Except.bind] at h
      | error e => rw [hl] at h; simp [Except.bind] at h
    | sub =>
      simp only [eval_node, allowedBin] at h
      cases hl : eval_node l with
      | ok a =>
        cases hr : eval_node r with
        | ok b =>
          rw [hl, hr] at h
          simp only [Except.bind, Except.ok.injEq] at h
          subst h
          exact Computes.sub (ihl a hl) (ihr b hr)
        | error e => rw [hl, hr] at h; simp [Except.bind] at h
      | error e => rw [hl] at h; simp [Except.bind] at h
    | mult =>
      simp only [eval_node, allowedBin] at h
      cases hl : eval_node l with
      | ok a =>
        cases hr : eval_node r with
        | ok b =>
          rw [hl, hr] at h
          simp only [Except.bind, Except.ok.injEq] at h
          subst h
          exact Computes.mult (ihl a hl) (ihr b hr)
        | error e => rw [hl, hr] at h; simp [Except.bind] at h
      | error e => rw [hl] at h; simp [Except.bind] at h
    | div =>
      simp only [eval_node, allowedBin] at h
      cases hl : eval_node l with
      | ok a =>
        cases hr : eval_node r with
        | ok b =>
          rw [hl, hr] at h
          simp only [Except.bind] at h
          by_cases hb : b = 0
          · rw [if_pos hb] at h
            cases h
          · rw [if_neg hb] at h
            simp only [Except.ok.injEq] at h
            subst h
            exact Computes.div (ihl a hl) (ihr b hr) hb
        | error e => rw [hl, hr] at h; simp [Except.bind] at h
      | error e => rw [hl] at h; simp [Except.bind] at h
    | pow => simp only [eval_node, allowedBin] at h; exact Except.noConfusion h
    | floorDiv => simp only [eval_node, allowedBin] at h; exact Except.noConfusion h
  | other => intro v h; exact Except.noConfusion h

/-- C1: for every input string, `safe_eval` either returns a value computed
using only the five allowed primitives (addition, subtraction,
multiplication, exact true division with nonzero divisor, unary negation),
or fails with one of `ValueError` (failed parse), `TypeError` (AST node or
operator outside the closed table) or `ZeroDivisionError` (division whose
right operand is exactly zero); nothing outside the closed operator table is
ever dispatched, for any AST whatever text produced it. -/
theorem safe_eval_closed_dispatch :
    (∀ (t : Node) (v : ℚ), eval_node t = Except.ok v → Computes t v) ∧
    (∀ cs : List Char, parseExpr cs = none →
      safe_eval cs = Except.error SafeEvalError.valueError) ∧
    (∀ (cs : List Char) (t : Node), parseExpr cs = some t →
      safe_eval cs = eval_node t) ∧
    (∀ (l r : Node) (a b : ℚ), eval_node l = Except.ok a →
      eval_node r = Except.ok b →
      eval_node (Node.binOp BinKind.div l r) =
        (if b = 0 then Except.error SafeEvalError.zeroDivision
         else Except.ok (a / b))) := by
  refine ⟨eval_node_computes, ?_, ?_, ?_⟩
  · intro cs h
    simp only [safe_eval, h]
  · intro cs t h
    simp only [safe_eval, h]
  · intro l r a b hl hr
    simp only [eval_node, allowedBin, hl, hr, Except.bind]

/-- Witness for C1 at a concrete input: `6 / 3` is computed by the allowed
primitives. -/
theorem safe_eval_closed_dispatch_w :
    Computes (Node.binOp BinKind.div (Node.num 6) (Node.num 3)) 2 :=
  safe_eval_closed_dispatch.1 (Node.binOp BinKind.div (Node.num 6) (Node.num 3)) 2
    (by with_unfolding_all rfl)

/-- C3: `validate` is total as a function returning data — for every input
string and every target it returns a record in which exactly one of
`valid = true` (with no error) or `valid = false` (with the failure reported
in the `error` field) holds; no branch escapes without producing a
result. -/
theorem validate_total_reports_errors :
    ∀ (cs : List Char) (t : ℚ),
      ((validate cs t).valid = true ∧ (validate cs t).error = none) ∨
      ((validate cs t).valid = false ∧ ∃ e, (validate cs t).error = some e) := by
  intro cs t
  simp only [validate]
  repeat first
  | (left; exact ⟨rfl, rfl⟩)
  | (right; exact ⟨rfl, _, rfl⟩)
  | split

/-- Spec wording of claim C2, modelled from the spec: a `'+'` at the start
of the string, immediately after `'('`, or as the first non-whitespace
character following the start or a `'('` — position `i` holds `'+'` and
there is a boundary `j ≤ i` (the start, or just after a `'('`) with only
whitespace strictly between `j` and `i`. -/
def specUnaryPlusPos (cs : List Char) : Prop :=
  ∃ i : Fin cs.length, cs.get i = '+' ∧
    ∃ j : Fin (i.1 + 1),
      (j.1 = 0 ∨ ∃ p : Fin cs.length, p.1 + 1 = j.1 ∧ cs.get p = '(') ∧
      ∀ k : Fin cs.length, j.1 ≤ k.1 → k.1 < i.1 → (cs.get k).isWhitespace = true

instance (cs : List Char) : Decidable (specUnaryPlusPos cs) := by
  unfold specUnaryPlusPos
  infer_instance

/-- Positions at which the implemented regex actually fires: a `'+'` at the
start, or whose immediately preceding character is `'('` or any whitespace
character. -/
def amendedPlusPos (cs : List Char) : Prop :=
  cs.head? = some '+' ∨
    ∃ pr c2, (pr, c2) ∈ cs.zip cs.tail ∧ c2 = '+' ∧
      (pr = '(' ∨ pr.isWhitespace = true)

lemma plusAfter_iff : ∀ (cs : List Char) (prev : Char),
    plusAfter prev cs = true ↔
      ∃ pr c2, (pr, c2) ∈ (prev :: cs).zip cs ∧ c2 = '+' ∧
        (pr = '(' ∨ pr.isWhitespace = true) := by
  intro cs
  induction cs with
  | nil =>
    intro prev
    simp [plusAfter]
  | cons c rest ih =>
    intro prev
    simp only [plusAfter, List.zip_cons_cons, List.mem_cons, Bool.or_eq_true,
      Bool.and_eq_true, decide_eq_true_eq]
    constructor
    · rintro (⟨hc, hpr⟩ | hrest)
      · exact ⟨prev, c, Or.inl rfl, hc, hpr⟩
      · obtain ⟨pr, c2, hm, hc2, hpr⟩ := (ih c).mp hrest
        exact ⟨pr, c2, Or.inr hm, hc2, hpr⟩
    · rintro ⟨pr, c2, hm | hm, hc2, hpr⟩
      · cases hm
        exact Or.inl ⟨hc2, hpr⟩
      · exact Or.inr ((ih c).mpr ⟨pr, c2, hm, hc2, hpr⟩)

lemma unaryPlusRe_iff (cs : List Char) :
    unaryPlusRe cs = true ↔ amendedPlusPos cs := by
  cases cs with
  | nil => simp [unaryPlusRe, amendedPlusPos]
  | cons c rest =>
    simp only [unaryPlusRe, Bool.or_eq_true, decide_eq_true_eq, amendedPlusPos,
      List.head?_cons, Option.some.injEq, List.tail_cons]
    exact or_congr Iff.rfl (plusAfter_iff rest c)

/-- Counterexample to C2 as stated: in `"2 +3"` the `'+'` is not at the
start, not after `'('`, and not the first non-whitespace character
following the start or a `'('` (the first non-whitespace character is
`'2'`), yet `validate` reports the unary-plus error, because the
implemented regex fires on any whitespace-preceded `'+'`. -/
theorem validate_unaryPlus_cex :
    trimWs ("2 +3".data) ≠ [] ∧
    hasIllegalChar ("2 +3".data) = false ∧
    ¬ ((validate ("2 +3".data) 5).error = some VError.unaryPlusNotAllowed ↔
        specUnaryPlusPos (trimWs ("2 +3".data))) := by
  refine ⟨by decide, by decide, ?_⟩
  intro hiff
  have h1 : (validate ("2 +3".data) 5).error = some VError.unaryPlusNotAllowed := by
    with_unfolding_all rfl
  have h2 := hiff.mp h1
  revert h2
  decide

/-- C2 (amended): for every equation text that is nonempty after trimming
and contains only legal characters, `validate` reports the unary-plus error
if and only if some `'+'` in the trimmed text is at the start or is
immediately preceded by `'('` or by any whitespace character. -/
theorem validate_unaryPlus_iff :
    ∀ (cs : List Char) (t : ℚ), trimWs cs ≠ [] →
      hasIllegalChar (trimWs cs) = false →
      ((validate cs t).error = some VError.unaryPlusNotAllowed ↔
        amendedPlusPos (trimWs cs)) := by
  intro cs t h1 h2
  rw [← unaryPlusRe_iff]
  simp only [validate]
  rw [if_neg h1, if_neg (by simp [h2])]
  by_cases h3 : unaryPlusRe (trimWs cs) = true
  · rw [if_pos h3]
    simp [h3]
  · rw [if_neg h3]
    refine iff_of_false ?_ h3
    cases hse : safe_eval (trimWs cs) with
    | ok v =>
      by_cases hc : isClose v t = true
      · simp [hc]
      · simp [hc]
    | error e =>
      cases e <;> simp

/-- Witness for C2 (amended) at `"+2"`: the leading `'+'` triggers the
error. -/
theorem validate_unaryPlus_iff_w :
    (validate ("+2".data) 2).error = some VError.unaryPlusNotAllowed :=
  (validate_unaryPlus_iff ("+2".data) 2 (by decide) (by decide)).mpr
    (Or.inl (by decide))

lemma numChar_legal {c : Char} (h : numChar c = true) : legalChar c = true := by
  simp only [numChar, Bool.or_eq_true, decide_eq_true_eq] at h
  rcases h with h | h
  · simp [legalChar, h]
  · simp [legalChar, h]

lemma tokenize_legal : ∀ (fuel : ℕ) (cs : List Char) (ts : List Token),
    tokenize fuel cs = some ts → ∀ c ∈ cs, legalChar c = true := by
  intro fuel
  induction fuel with
  | zero =>
    intro cs ts h c hc
    cases cs with
    | nil => simp at hc
    | cons c0 rest => simp [tokenize] at h
  | succ f ih =>
    intro cs ts h c hc
    cases cs with
    | nil => simp at hc
    | cons c0 rest =>
      rw [tokenize] at h
      by_cases hws : c0.isWhitespace = true
      · rw [if_pos hws] at h
        rcases List.mem_cons.mp hc with rfl | hmem
        · simp [legalChar, hws]
        · exact ih rest ts h c hmem
      · rw [if_neg hws] at h
        by_cases h1 : c0 = '+'
        · rw [if_pos h1] at h
          obtain ⟨ts2, hts2, -⟩ := Option.map_eq_some'.mp h
          rcases List.mem_cons.mp hc with rfl | hmem
          · simp [legalChar, h1]
          · exact ih rest ts2 hts2 c hmem
        · rw [if_neg h1] at h
          by_cases h2 : c0 = '-'
          · rw [if_pos h2] at h
            obtain ⟨ts2, hts2, -⟩ := Option.map_eq_some'.mp h
            rcases List.mem_cons.mp hc with rfl | hmem
            · simp [legalChar, h2]
            · exact ih rest ts2 hts2 c hmem
          · rw [if_neg h2] at h
            by_cases h3 : c0 = '('
            · rw [if_pos h3] at h
              obtain ⟨ts2, hts2, -⟩ := Option.map_eq_some'.mp h
              rcases List.mem_cons.mp hc with rfl | hmem
              · simp [legalChar, h3]
              · exact ih rest ts2 hts2 c hmem
            · rw [if_neg h3] at h
              by_cases h4 : c0 = ')'
              · rw [if_pos h4] at h
                obtain ⟨ts2, hts2, -⟩ := Option.map_eq_some'.mp h
                rcases List.mem_cons.mp hc with rfl | hmem
                · simp [legalChar, h4]
                · exact ih rest ts2 hts2 c hmem
              · rw [if_neg h4] at h
                by_cases h5 : c0 = '*'
                · rw [if_pos h5] at h
                  by_cases hh : rest.head? = some '*'
                  · rw [if_pos hh] at h
                    obtain ⟨ts2, hts2, -⟩ := Option.map_eq_some'.mp h
                    rcases List.mem_cons.mp hc with rfl | hmem
                    · simp [legalChar, h5]
                    · cases rest with
                      | nil => simp at hh
                      | cons r rs =>
                        simp only [List.head?_cons, Option.some.injEq] at hh
                        rcases List.mem_cons.mp hmem with rfl | hmem2
                        · simp [legalChar, hh]
                        · exact ih rs ts2 hts2 c hmem2
                  · rw [if_neg hh] at h
                    obtain ⟨ts2, hts2, -⟩ := Option.map_eq_some'.mp h
                    rcases List.mem_cons.mp hc with rfl | hmem
                    · simp [legalChar, h5]
                    · exact ih rest ts2 hts2 c hmem
                · rw [if_neg h5] at h
                  by_cases h6 : c0 = '/'
                  · rw [if_pos h6] at h
                    by_cases hh : rest.head? = some '/'
                    · rw [if_pos hh] at h
                      obtain ⟨ts2, hts2, -⟩ := Option.map_eq_some'.mp h
                      rcases List.mem_cons.mp hc with rfl | hmem
                      · simp [legalChar, h6]
                      · cases rest with
                        | nil => simp at hh
                        | cons r rs =>
                          simp only [List.head?_cons, Option.some.injEq] at hh
                          rcases List.mem_cons.mp hmem with rfl | hmem2
                          · simp [legalChar, hh]
                          · exact ih rs ts2 hts2 c hmem2
                    · rw [if_neg hh] at h
                      obtain ⟨ts2, hts2, -⟩ := Option.map_eq_some'.mp h
                      rcases List.mem_cons.mp hc with rfl | hmem
                      · simp [legalChar, h6]
                      · exact ih rest ts2 hts2 c hmem
                  · rw [if_neg h6] at h
                    by_cases h7 : numChar c0 = true
                    · rw [if_pos h7] at h
                      split at h
                      case _ q hq =>
                        obtain ⟨ts2, hts2, -⟩ := Option.map_eq_some'.mp h
                        have hsplit :
                            (c0 :: rest).takeWhile numChar ++
                              (c0 :: rest).dropWhile numChar = c0 :: rest :=
                          List.takeWhile_append_dropWhile numChar (c0 :: rest)
                        rw [← hsplit] at hc
                        rcases List.mem_append.mp hc with hmem | hmem
                        · exact numChar_legal (List.mem_takeWhile_imp hmem)
                        · exact ih _ ts2 hts2 c hmem
                      case _ => exact Option.noConfusion h
                    · rw [if_neg h7] at h
                      exact Option.noConfusion h

lemma parse_no_illegal {cs : List Char} {t : Node} (h : parseExpr cs = some t) :
    hasIllegalChar cs = false := by
  unfold parseExpr at h
  cases htok : tokenize cs.length cs with
  | none => rw [htok] at h; exact Option.noConfusion h
  | some ts =>
    have hleg := tokenize_legal cs.length cs ts htok
    unfold hasIllegalChar
    rw [List.any_eq_false]
    intro c hc
    simp [hleg c hc]

lemma isClose_self (v : ℚ) : isClose v v = true := by
  unfold isClose
  rw [decide_eq_true_eq]
  simp only [sub_self, abs_zero]
  exact le_max_right _ 0

/-- Counterexample to C4 as stated: `"2 + 3"` is syntactically valid, its
evaluation (5) involves no division by zero, yet `validate("2 + 3", 5)` is
not valid — the whitespace-preceded `'+'` trips the unary-plus guard. -/
theorem validate_roundtrip_cex :
    safe_eval (trimWs ("2 + 3".data)) = Except.ok 5 ∧
    (validate ("2 + 3".data) 5).valid = false ∧
    (validate ("2 + 3".data) 5).error = some VError.unaryPlusNotAllowed := by
  refine ⟨?_, ?_, ?_⟩ <;> with_unfolding_all rfl

/-- C4 (amended): for every equation text whose trimmed form evaluates
successfully under `safe_eval` (hence parses, and hits no division by zero
and no disallowed operator) and does not trip the unary-plus guard,
validating it against its own value succeeds. -/
theorem validate_roundtrip_amended :
    ∀ (cs : List Char) (v : ℚ), safe_eval (trimWs cs) = Except.ok v →
      unaryPlusRe (trimWs cs) = false → (validate cs v).valid = true := by
  intro cs v hse hup
  have hne : trimWs cs ≠ [] := by
    intro h0
    rw [h0] at hse
    have he : safe_eval ([] : List Char) = Except.error SafeEvalError.valueError := by
      rfl
    rw [he] at hse
    exact Except.noConfusion hse
  have hpt : ∃ t, parseExpr (trimWs cs) = some t := by
    unfold safe_eval at hse
    cases hp : parseExpr (trimWs cs) with
    | none => rw [hp] at hse; exact Except.noConfusion hse
    | some t => exact ⟨t, rfl⟩
  obtain ⟨t, hpt⟩ := hpt
  have hil : hasIllegalChar (trimWs cs) = false := parse_no_illegal hpt
  simp only [validate]
  rw [if_neg hne, if_neg (by simp [hil]), if_neg (by simp [hup]), hse]
  simp [isClose_self v]

/-- Witness for C4 (amended) at `"2+3"` against its own value 5. -/
theorem validate_roundtrip_amended_w :
    (validate ("2+3".data) 5).valid = true :=
  validate_roundtrip_amended ("2+3".data) 5 (by with_unfolding_all rfl) (by decide)

/-- Counterexample to C5 as stated: `"2++3"` parses (as `2 + (+3)`) and
fails during evaluation with `TypeError: Disallowed operator: UAdd`,
surfaced as the catch-all `Invalid equation` error — neither the
unary-plus-not-allowed error nor a syntax (parse) error. -/
theorem validate_examples_cex :
    (validate ("2++3".data) 0).error =
      some (VError.invalidEquation (SafeEvalError.typeErrorUnaryOp UnKind.uadd)) ∧
    (validate ("2++3".data) 0).error ≠ some VError.unaryPlusNotAllowed ∧
    (validate ("2++3".data) 0).error ≠
      some (VError.invalidEquation SafeEvalError.valueError) := by
  refine ⟨by with_unfolding_all rfl, ?_, ?_⟩ <;>
    rw [show (validate ("2++3".data) 0).error =
      some (VError.invalidEquation (SafeEvalError.typeErrorUnaryOp UnKind.uadd)) from
        by with_unfolding_all rfl] <;> simp

/-- C5 (amended): the concrete validation outcomes — `"2+3*4"` validates
against 14 and `"(2+3)*4"` against 20; `"5/0"` reports division by zero for
every target; `"2++3"` reports the catch-all invalid-equation error
(disallowed unary-plus operator) for every target; `"+2+3"` reports
unary-plus-not-allowed for every target; `"2@3"` reports an illegal
character for every target. -/
theorem validate_examples :
    (validate ("2+3*4".data) 14).valid = true ∧
    (validate ("(2+3)*4".data) 20).valid = true ∧
    (∀ t : ℚ, (validate ("5/0".data) t).error = some VError.divisionByZero) ∧
    (∀ t : ℚ, (validate ("2++3".data) t).error =
      some (VError.invalidEquation (SafeEvalError.typeErrorUnaryOp UnKind.uadd))) ∧
    (∀ t : ℚ, (validate ("+2+3".data) t).error = some VError.unaryPlusNotAllowed) ∧
    (∀ t : ℚ, (validate ("2@3".data) t).error = some VError.illegalCharacter) := by
  refine ⟨?_, ?_, fun t => ?_, fun t => ?_, fun t => ?_, fun t => ?_⟩ <;>
    with_unfolding_all rfl

/-- C6: the five concrete equivalence outcomes of
`are_equations_equivalent`. -/
theorem equivalence_examples :
    are_equations_equivalent ("9+1".data) ("1+9".data) = true ∧
    are_equations_equivalent ("2+8".data) ("1+9".data) = false ∧
    are_equations_equivalent ("10-5".data) ("5-10".data) = false ∧
    are_equations_equivalent ("3+2*4".data) ("2*4+3".data) = true ∧
    are_equations_equivalent ("6/2".data) ("2*3".data) = false := by
  refine ⟨?_, ?_, ?_, ?_, ?_⟩ <;> with_unfolding_all rfl

/-- C7, evaluated at the failing input: `"2**3"` and `"2//3"` both parse,
their canonical form strings are equal (both are `"(2None3)"`, since the
canonicalizer has no symbol for `Pow` or `FloorDiv` and renders Python
`None`), their operand multisets agree, but their operator multisets differ
(`{Pow}` vs `{FloorDiv}`) — the multiset cross-check disagrees with
canonical-form equality on well-formed input. -/
theorem canonical_multiset_disagreement :
    (parseExpr ("2**3".data)).isSome = true ∧
    (parseExpr ("2//3".data)).isSome = true ∧
    (extract_operands_and_operators ("2**3".data)).structure_sig =
      (extract_operands_and_operators ("2//3".data)).structure_sig ∧
    (extract_operands_and_operators ("2**3".data)).structure_sig = "(2None3)".data ∧
    counterEq (extract_operands_and_operators ("2**3".data)).operands
      (extract_operands_and_operators ("2//3".data)).operands = true ∧
    counterEq (extract_operands_and_operators ("2**3".data)).operators
      (extract_operands_and_operators ("2//3".data)).operators = false := by
  refine ⟨?_, ?_, ?_, ?_, ?_, ?_⟩ <;> with_unfolding_all rfl

lemma breakable_nodup (target : ℤ) : (breakable_buttons target).Nodup := by
  apply List.Nodup.filter
  decide

lemma mem_breakable {target : ℤ} {b : Char} (h : b ∈ breakable_buttons target) :
    b ∉ required_working target := by
  have h2 := (List.mem_filter.mp h).2
  simpa using h2

lemma generate_invariant (samp : List Char → ℕ → List Char) (hs : SampleSpec samp) :
    ∀ (fuel : ℕ) (target count : ℤ) (attempts : ℕ), 10 - attempts ≤ fuel →
      (generate_broken_buttons samp target count attempts).Nodup ∧
      (∀ b ∈ generate_broken_buttons samp target count attempts,
        b ∉ required_working target) ∧
      (0 ≤ count →
        ((generate_broken_buttons samp target count attempts).length : ℤ) ≤ count) := by
  intro fuel
  induction fuel with
  | zero =>
    intro target count attempts hf
    rw [generate_broken_buttons, if_pos (Or.inr (by omega))]
    exact ⟨List.nodup_nil, by simp, fun hc => by simpa using hc⟩
  | succ f ih =>
    intro target count attempts hf
    rw [generate_broken_buttons]
    by_cases h0 : count ≤ 0 ∨ 10 ≤ attempts
    · rw [if_pos h0]
      exact ⟨List.nodup_nil, by simp, fun hc => by simpa using hc⟩
    · rw [if_neg h0]
      have hcount : 0 < count := by omega
      have hk : (min count ((breakable_buttons target).length : ℤ)).toNat ≤
          (breakable_buttons target).length := by omega
      obtain ⟨hlen, hnd, hmem⟩ :=
        hs (breakable_buttons target) _ hk (breakable_nodup target)
      by_cases hv : validate_solvable target
          (samp (breakable_buttons target)
            (min count ((breakable_buttons target).length : ℤ)).toNat) = true
      · rw [if_pos hv]
        refine ⟨hnd, fun b hb => mem_breakable (hmem b hb), fun hc => ?_⟩
        rw [hlen]
        omega
      · rw [if_neg hv]
        obtain ⟨ih1, ih2, ih3⟩ := ih target (count - 1) (attempts + 1) (by omega)
        exact ⟨ih1, ih2, fun hc => by have := ih3 (by omega); omega⟩

/-- C8: for every sampling outcome, target and desired count at least 0, the
generated broken-key list has no duplicates, is disjoint from the
required-working keys, and has at most `count` elements. -/
theorem generate_broken_invariant :
    ∀ samp, SampleSpec samp → ∀ (target count : ℤ), 0 ≤ count →
      (generate_broken_buttons samp target count 0).Nodup ∧
      (∀ b ∈ generate_broken_buttons samp target count 0,
        b ∉ required_working target) ∧
      ((generate_broken_buttons samp target count 0).length : ℤ) ≤ count :=
  fun samp hs target count hc =>
    ⟨(generate_invariant samp hs 10 target count 0 (by omega)).1,
     (generate_invariant samp hs 10 target count 0 (by omega)).2.1,
     (generate_invariant samp hs 10 target count 0 (by omega)).2.2 hc⟩

/-- Deterministic sampler satisfying the `random.sample` contract, used to
witness the sampling hypotheses. -/
def takeSample (pop : List Char) (k : ℕ) : List Char := pop.take k

lemma takeSample_spec : SampleSpec takeSample := by
  intro pop k hk hnd
  refine ⟨?_, ?_, ?_⟩
  · simp only [takeSample, List.length_take]
    omega
  · exact List.Nodup.sublist (List.take_sublist k pop) hnd
  · intro x hx
    exact List.take_subset k pop hx

/-- Witness for C8 at `target = 30`, `count = 3` with a concrete sampler. -/
theorem generate_broken_invariant_w :
    (generate_broken_buttons takeSample 30 3 0).Nodup ∧
    (∀ b ∈ generate_broken_buttons takeSample 30 3 0, b ∉ required_working 30) ∧
    ((generate_broken_buttons takeSample 30 3 0).length : ℤ) ≤ 3 :=
  generate_broken_invariant takeSample takeSample_spec 30 3 (by decide)

/-- Modelled from the claim wording for C9: the estimate is the maximum of
`max_digit * 10`, of `sum(digits) * 5` when `+` is enabled, and of
`max_digit` squared when `*` is enabled with at least two digits. -/
def estimateSpec (digits : List ℤ) (operators : List Char) : ℤ :=
  max ((digits.foldl max 0) * 10)
    (max (if '+' ∈ operators then digits.sum * 5 else (digits.foldl max 0) * 10)
      (if '*' ∈ operators ∧ 2 ≤ digits.length then (digits.foldl max 0) ^ 2
       else (digits.foldl max 0) * 10))

lemma estimateSpec_eq (digits : List ℤ) (ops : List Char) :
    estimateSpec digits ops = estimate_max_reachable_value digits ops := by
  unfold estimateSpec estimate_max_reachable_value
  by_cases hp : '+' ∈ ops <;> by_cases hm : '*' ∈ ops ∧ 2 ≤ digits.length <;>
    simp only [hp, hm, and_self, if_true, if_false, ite_true, ite_false]
  · exact (max_assoc _ _ _).symm
  · rw [max_left_comm, max_self, max_comm]
  · rw [← max_assoc, max_self]
  · rw [max_self, max_self]

/-- C9: `validate_solvable` returns `false` whenever the remaining digit or
operator set is empty, and otherwise returns `true` exactly when the
heuristic estimate (maximum of the three closed-form terms) reaches the
target. -/
theorem validate_solvable_formula :
    ∀ (target : ℤ) (broken : List Char),
      ((enabledDigits broken = [] ∨ enabledOps broken = []) →
        validate_solvable target broken = false) ∧
      (enabledDigits broken ≠ [] → enabledOps broken ≠ [] →
        (validate_solvable target broken = true ↔
          target ≤ estimateSpec (enabledDigits broken) (enabledOps broken))) := by
  intro target broken
  constructor
  · intro h
    unfold validate_solvable
    rw [if_pos h]
  · intro h1 h2
    unfold validate_solvable
    rw [if_neg (by tauto), estimateSpec_eq]
    exact decide_eq_true_iff

/-- Witness for C9: with no broken keys, target 90 is accepted (the sum
estimate is 225). -/
theorem validate_solvable_formula_w :
    validate_solvable 90 [] = true :=
  ((validate_solvable_formula 90 []).2 (by decide) (by decide)).mpr (by decide)

/-- C10: `required_working` is exactly `{'1', '+'}` for targets at most 50
and exactly `{'2', '*', '+'}` above 50; consequently `'+'` is never broken,
`'1'` is never broken for targets at most 50, and `'2'`, `'*'` are never
broken for larger targets, whatever the sampling outcome, count and
attempt counter. -/
theorem required_working_policy :
    (∀ target : ℤ, required_working target =
      if target ≤ 50 then ['1', '+'] else ['2', '*', '+']) ∧
    (∀ samp, SampleSpec samp → ∀ (target count : ℤ) (attempts : ℕ),
      '+' ∉ generate_broken_buttons samp target count attempts ∧
      (target ≤ 50 → '1' ∉ generate_broken_buttons samp target count attempts) ∧
      (50 < target →
        '2' ∉ generate_broken_buttons samp target count attempts ∧
        '*' ∉ generate_broken_buttons samp target count attempts)) := by
  constructor
  · intro target
    rfl
  · intro samp hs target count attempts
    have hmain :=
      (generate_invariant samp hs (10 - attempts) target count attempts (by omega)).2.1
    refine ⟨fun hb => ?_, fun ht hb => ?_, fun ht => ⟨fun hb => ?_, fun hb => ?_⟩⟩
    · exact hmain '+' hb (by unfold required_working; split <;> simp)
    · exact hmain '1' hb (by unfold required_working; rw [if_pos ht]; simp)
    · exact hmain '2' hb (by unfold required_working; rw [if_neg (by omega)]; simp)
    · exact hmain '*' hb (by unfold required_working; rw [if_neg (by omega)]; simp)

/-- Witness for C10 at `target = 10`, `count = 3`: `'+'` and `'1'` are not
among the generated broken keys. -/
theorem required_working_policy_w :
    '+' ∉ generate_broken_buttons takeSample 10 3 0 ∧
    '1' ∉ generate_broken_buttons takeSample 10 3 0 :=
  ⟨(required_working_policy.2 takeSample takeSample_spec 10 3 0).1,
   (required_working_policy.2 takeSample takeSample_spec 10 3 0).2.1 (by decide)⟩
